import Mathlib

/-!
Formal model of the particle-analysis core of this repository: 3D volumes,
neighbourhood contact counting (`contact/core.py`), guard-volume filtering
(`contact/guard_volume.py`), the erosion-watershed splitter
(`volume/core.py`), the binarizer's polarity selection (`processing.py`),
the variation-of-information metric (`volume/metrics/stability.py`) and the
constraint-based radius selector (`volume/optimizer.py`).

All definitions are translated from the Python sources.  NumPy float
arithmetic is embedded as exact arithmetic over `ℚ`/`ℝ`; Python dicts built
in key order are embedded as association lists in the same key order.
-/

open scoped NNReal

namespace ParticleAnalysis

variable {α : Type}

/-- A dense 3D array `data z y x` of shape `(Z, Y, X)` (axis order as in the
NumPy arrays of the source: `labels[z, y, x]`).  Entries outside the shape
are irrelevant: every operation below consults only in-range voxels. -/
structure Vol (α : Type) where
  Z : ℕ
  Y : ℕ
  X : ℕ
  data : ℕ → ℕ → ℕ → α

/-- The in-range voxel coordinates of a volume. -/
def Vol.coords (v : Vol α) : Finset (ℕ × ℕ × ℕ) :=
  Finset.range v.Z ×ˢ Finset.range v.Y ×ˢ Finset.range v.X

/-- The value stored at an (in-range) coordinate triple. -/
def Vol.val (v : Vol α) (p : ℕ × ℕ × ℕ) : α :=
  v.data p.1 p.2.1 p.2.2

theorem Vol.mem_coords (v : Vol α) (p : ℕ × ℕ × ℕ) :
    p ∈ v.coords ↔ p.1 < v.Z ∧ p.2.1 < v.Y ∧ p.2.2 < v.X := by
  simp [Vol.coords]

/-- A coordinate shifted by an integer offset `(dz, dy, dx)`. -/
def addOff (p : ℕ × ℕ × ℕ) (o : ℤ × ℤ × ℤ) : ℤ × ℤ × ℤ :=
  ((p.1 : ℤ) + o.1, (p.2.1 : ℤ) + o.2.1, (p.2.2 : ℤ) + o.2.2)

/-- Whether an integer coordinate lies inside the array bounds. -/
def Vol.inB (v : Vol α) (q : ℤ × ℤ × ℤ) : Prop :=
  0 ≤ q.1 ∧ q.1 < (v.Z : ℤ) ∧ 0 ≤ q.2.1 ∧ q.2.1 < (v.Y : ℤ) ∧
    0 ≤ q.2.2 ∧ q.2.2 < (v.X : ℤ)

instance (v : Vol α) (q : ℤ × ℤ × ℤ) : Decidable (v.inB q) := by
  unfold Vol.inB; infer_instance

/-- Value at an integer coordinate, with a default outside the bounds
(NumPy reads in the source only happen on valid slices; the default is the
out-of-bounds padding used by `binary_erosion`'s `border_value=0`). -/
def Vol.valZ (v : Vol α) (d : α) (q : ℤ × ℤ × ℤ) : α :=
  if v.inB q then v.data q.1.toNat q.2.1.toNat q.2.2.toNat else d

/-! ### Contact counting — `count_contacts` in `src/particle_analysis/contact/core.py`

The source selects an offset list from the connectivity argument (6 face
offsets; 18 face+edge offsets; **everything else** falls into the
`else:  # connectivity == 26` branch), then for every offset compares the
label array against its shifted copy over the overlapping region; where both
sides are nonzero and differ, each side's id is added to the other's set
(`contacts[curr].add(neigh); contacts[neigh].add(curr)`).  The final dict
maps every id in `range(1, max_label + 1)` to the size of its set. -/

/-- The 6 face offsets, in source order. -/
def offs6 : List (ℤ × ℤ × ℤ) :=
  [(-1, 0, 0), (1, 0, 0), (0, -1, 0), (0, 1, 0), (0, 0, -1), (0, 0, 1)]

/-- All 27 offsets of the 3×3×3 neighbourhood, in the source's loop order. -/
def offsRaw : List (ℤ × ℤ × ℤ) :=
  ([-1, 0, 1] : List ℤ).flatMap fun dz =>
    ([-1, 0, 1] : List ℤ).flatMap fun dy =>
      ([-1, 0, 1] : List ℤ).map fun dx => (dz, dy, dx)

/-- The 18 face+edge offsets (`abs(dx)+abs(dy)+abs(dz) <= 2`, nonzero). -/
def offs18 : List (ℤ × ℤ × ℤ) :=
  offsRaw.filter fun o =>
    decide (o.1.natAbs + o.2.1.natAbs + o.2.2.natAbs ≤ 2 ∧ o ≠ (0, 0, 0))

/-- The 26 nonzero offsets of the full neighbourhood. -/
def offs26 : List (ℤ × ℤ × ℤ) :=
  offsRaw.filter fun o => decide (o ≠ (0, 0, 0))

/-- The offset list chosen by `count_contacts` from its `connectivity`
argument.  Note the dispatch is `if 6 / elif 18 / else 26`: there is no
validation branch. -/
def offsetsFor (c : ℕ) : List (ℤ × ℤ × ℤ) :=
  if c = 6 then offs6 else if c = 18 then offs18 else offs26

/-- `labels.max()` over the (possibly empty) volume, 0 for an all-zero one. -/
def maxLabel (L : Vol ℕ) : ℕ := L.coords.sup L.val

/-- A contact event at voxel `p` for offset `o`: the shifted coordinate is
in bounds (this is exactly the overlap region selected by the source's slice
arithmetic) and the two labels are nonzero and different. -/
def contactEvent (L : Vol ℕ) (o : ℤ × ℤ × ℤ) (p : ℕ × ℕ × ℕ) : Prop :=
  L.inB (addOff p o) ∧ 0 < L.val p ∧ 0 < L.valZ 0 (addOff p o) ∧
    L.val p ≠ L.valZ 0 (addOff p o)

instance (L : Vol ℕ) (o : ℤ × ℤ × ℤ) (p : ℕ × ℕ × ℕ) :
    Decidable (contactEvent L o p) := by
  unfold contactEvent; infer_instance

/-- All `(current_label, neighbor_label)` pairs produced by the scan over
the given offsets. -/
def contactPairsOf (L : Vol ℕ) (offs : List (ℤ × ℤ × ℤ)) : Finset (ℕ × ℕ) :=
  ((offs.toFinset ×ˢ L.coords).filter fun oc => contactEvent L oc.1 oc.2).image
    fun oc => (L.val oc.2, L.valZ 0 (addOff oc.2 oc.1))

/-- The set of distinct neighbours accumulated for id `i`: the source adds
`neigh` to `contacts[curr]` and `curr` to `contacts[neigh]` at every event. -/
def contactSetOf (L : Vol ℕ) (offs : List (ℤ × ℤ × ℤ)) (i : ℕ) : Finset ℕ :=
  ((contactPairsOf L offs).filter fun pr => pr.1 = i).image Prod.snd ∪
    ((contactPairsOf L offs).filter fun pr => pr.2 = i).image Prod.fst

/-- `count_contacts(labels, connectivity)`: the dict
`{pid: len(contacts[pid]) for pid in range(1, max_label + 1)}`, embedded as
an association list in ascending key order.  The source raises no error for
any connectivity value. -/
def count_contacts (L : Vol ℕ) (connectivity : ℕ) : List (ℕ × ℕ) :=
  (List.range' 1 (maxLabel L)).map fun pid =>
    (pid, (contactSetOf L (offsetsFor connectivity) pid).card)

theorem mem_contactSetOf {L : Vol ℕ} {offs : List (ℤ × ℤ × ℤ)} {i j : ℕ} :
    j ∈ contactSetOf L offs i ↔
      (i, j) ∈ contactPairsOf L offs ∨ (j, i) ∈ contactPairsOf L offs := by
  constructor
  · intro h
    rcases Finset.mem_union.mp h with h | h
    · rcases Finset.mem_image.mp h with ⟨pr, hpr, hsnd⟩
      rcases Finset.mem_filter.mp hpr with ⟨hmem, hfst⟩
      left
      have : pr = (i, j) := by
        cases pr; simp_all
      rwa [this] at hmem
    · rcases Finset.mem_image.mp h with ⟨pr, hpr, hfst⟩
      rcases Finset.mem_filter.mp hpr with ⟨hmem, hsnd⟩
      right
      have : pr = (j, i) := by
        cases pr; simp_all
      rwa [this] at hmem
  · intro h
    rcases h with h | h
    · exact Finset.mem_union_left _
        (Finset.mem_image.mpr ⟨(i, j), Finset.mem_filter.mpr ⟨h, rfl⟩, rfl⟩)
    · exact Finset.mem_union_right _
        (Finset.mem_image.mpr ⟨(j, i), Finset.mem_filter.mpr ⟨h, rfl⟩, rfl⟩)

/-- C7: For every label volume and every connectivity value, the contact
relation computed by `count_contacts` is symmetric: `j` is in the neighbour
set of `i` iff `i` is in the neighbour set of `j` — the scan records both
sides of every contact event. -/
theorem count_contacts_symmetric (L : Vol ℕ) (c : ℕ) (i j : ℕ) :
    j ∈ contactSetOf L (offsetsFor c) i ↔ i ∈ contactSetOf L (offsetsFor c) j := by
  rw [mem_contactSetOf, mem_contactSetOf]
  exact or_comm

/-- Two adjacent voxels labelled 1 and 2 in a 1×1×2 volume. -/
def exTwo : Vol ℕ := ⟨1, 1, 2, fun _ _ x => x + 1⟩

/-- C4 counterexample: with connectivity 7 (outside `{6, 26}`),
`count_contacts` does not fail — it computes contact counts with the
substituted 26-neighbourhood, returning the same counts as connectivity 26. -/
theorem count_contacts_conn7_computes :
    count_contacts exTwo 7 = [(1, 1), (2, 1)] ∧
      count_contacts exTwo 7 = count_contacts exTwo 26 := by
  constructor <;> decide

/-- C4 (amended): `count_contacts` performs no connectivity validation:
6 selects the face neighbourhood, 18 the face+edge neighbourhood, and every
other value falls through to the full 26-neighbourhood; no error is raised. -/
theorem count_contacts_substitutes_26 (L : Vol ℕ) (c : ℕ)
    (h6 : c ≠ 6) (h18 : c ≠ 18) :
    count_contacts L c = count_contacts L 26 := by
  have h : offsetsFor c = offsetsFor 26 := by
    simp [offsetsFor, h6, h18]
  unfold count_contacts
  rw [h]

/-- C4 witness: the amended theorem applied at connectivity 7. -/
theorem count_contacts_substitutes_26_witness :
    (7 ≠ 6 ∧ 7 ≠ 18) ∧ count_contacts exTwo 7 = count_contacts exTwo 26 :=
  ⟨by decide, count_contacts_substitutes_26 exTwo 7 (by decide) (by decide)⟩

/-! ### Guard volume — `src/particle_analysis/contact/guard_volume.py` -/

/-- Voxel count of one particle id (`np.sum(labels == label_id)`). -/
def particleVolume (L : Vol ℕ) (pid : ℕ) : ℕ :=
  (L.coords.filter fun p => L.val p = pid).card

/-- `np.unique(labels)` restricted to positive ids. -/
def presentLabels (L : Vol ℕ) : Finset ℕ :=
  (L.coords.image L.val).filter fun pid => 0 < pid

/-- `calculate_max_particle_radius`: the maximum over present particles of
the equivalent-sphere radius `(3V / 4π)^(1/3)`, 0 when there are no labels.
The float computation is embedded exactly over `ℝ≥0`. -/
noncomputable def calculate_max_particle_radius (L : Vol ℕ) : ℝ≥0 :=
  if maxLabel L = 0 then 0
  else
    (presentLabels L).sup fun pid =>
      if 0 < particleVolume L pid then
        ((3 * (particleVolume L pid : ℝ≥0)) / (4 * Real.pi.toNNReal)) ^ ((1 : ℝ) / 3)
      else 0

/-- `int(np.ceil(max_radius * margin_multiplier))`. -/
noncomputable def calculatedMargin (L : Vol ℕ) (margin_multiplier : ℝ≥0) : ℕ :=
  Nat.ceil (calculate_max_particle_radius L * margin_multiplier)

/-- The 6%-of-each-dimension cap
`min(int(Z*0.06), int(H*0.06), int(W*0.06))`: the float literal `0.06` is
embedded as the exact rational `6/100`, so the truncation `int(d * 0.06)`
is the natural-number division `d * 6 / 100`. -/
def maxAllowedMargin (Zn Yn Xn : ℕ) : ℕ :=
  min (Zn * 6 / 100) (min (Yn * 6 / 100) (Xn * 6 / 100))

/-- `calculate_guard_margin(labels, min_margin, margin_multiplier)`
(defaults in the source: `min_margin=10`, `margin_multiplier=0.3`):
`margin = max(calculated, min_margin)`; if it exceeds the cap it is clamped
to the cap; finally `margin = max(min(margin, max_allowed), min_margin)`. -/
noncomputable def calculate_guard_margin (L : Vol ℕ) (min_margin : ℕ)
    (margin_multiplier : ℝ≥0) : ℕ :=
  let calcm := calculatedMargin L margin_multiplier
  let margin0 := max calcm min_margin
  let ma := maxAllowedMargin L.Z L.Y L.X
  let margin1 := if ma < margin0 then ma else margin0
  max (min margin1 ma) min_margin

theorem guard_margin_closed (L : Vol ℕ) (mm : ℕ) (mult : ℝ≥0) :
    calculate_guard_margin L mm mult =
      max (min (max (calculatedMargin L mult) mm) (maxAllowedMargin L.Z L.Y L.X)) mm := by
  simp only [calculate_guard_margin]
  split
  next h => rw [min_self, min_eq_right (le_of_lt h)]
  next h => rfl

theorem guard_margin_of_le (L : Vol ℕ) (mm : ℕ) (mult : ℝ≥0)
    (h : maxAllowedMargin L.Z L.Y L.X ≤ mm) :
    calculate_guard_margin L mm mult = mm := by
  rw [guard_margin_closed]
  exact max_eq_right ((min_le_right _ _).trans h)

/-- A 17×17×17 all-zero label volume. -/
def ex17 : Vol ℕ := ⟨17, 17, 17, fun _ _ _ => 0⟩

/-- C3 counterexample: on a 17×17×17 label volume the 6% cap is
`min(⌊1.02⌋, ⌊1.02⌋, ⌊1.02⌋) = 1`, yet `calculate_guard_margin` with the
default `min_margin = 10` returns 10 — the final
`max(min(margin, max_allowed), min_margin)` line re-raises the clamped
margin above the cap. -/
theorem guard_margin_exceeds_cap :
    maxAllowedMargin ex17.Z ex17.Y ex17.X < calculate_guard_margin ex17 10 (3 / 10) := by
  rw [guard_margin_of_le ex17 10 (3 / 10) (by decide)]
  show maxAllowedMargin 17 17 17 < 10
  decide

/-- C3 (amended): `calculate_guard_margin` returns
`max(min(max(⌈0.3·r_eq⌉, min_margin), cap), min_margin)`; the returned
margin respects the 6%-of-each-dimension cap whenever `min_margin` itself
does (`min_margin ≤ cap`); when `min_margin` exceeds the cap the function
returns `min_margin`, exceeding the cap. -/
theorem guard_margin_le_cap (L : Vol ℕ) (mm : ℕ) (mult : ℝ≥0)
    (h : mm ≤ maxAllowedMargin L.Z L.Y L.X) :
    calculate_guard_margin L mm mult ≤ maxAllowedMargin L.Z L.Y L.X := by
  rw [guard_margin_closed]
  exact max_le (min_le_right _ _) h

/-- C3 witness: on the 17³ volume with `min_margin = 1 ≤ cap = 1` the
amended cap bound holds. -/
theorem guard_margin_le_cap_witness :
    1 ≤ maxAllowedMargin ex17.Z ex17.Y ex17.X ∧
      calculate_guard_margin ex17 1 (3 / 10) ≤ maxAllowedMargin ex17.Z ex17.Y ex17.X :=
  ⟨by decide, guard_margin_le_cap ex17 1 (3 / 10) (by decide)⟩

/-- `create_guard_volume_mask(shape, margin)` at one voxel: at least
`margin` away from every face (NumPy's `Z - margin` is integer arithmetic,
embedded over `ℤ`). -/
def create_guard_volume_mask (Zn Yn Xn margin : ℕ) (p : ℕ × ℕ × ℕ) : Prop :=
  margin ≤ p.1 ∧ (p.1 : ℤ) < (Zn : ℤ) - margin ∧
    margin ≤ p.2.1 ∧ (p.2.1 : ℤ) < (Yn : ℤ) - margin ∧
    margin ≤ p.2.2 ∧ (p.2.2 : ℤ) < (Xn : ℤ) - margin

instance (Zn Yn Xn margin : ℕ) (p : ℕ × ℕ × ℕ) :
    Decidable (create_guard_volume_mask Zn Yn Xn margin p) := by
  unfold create_guard_volume_mask; infer_instance

/-- `filter_interior_particles`: ids all of whose voxels lie in the guard
mask (the source compares the masked voxel count with the particle's voxel
count; equality holds iff every voxel of the particle is in the mask). -/
def filter_interior_particles (L : Vol ℕ) (margin : ℕ) : Finset ℕ :=
  (presentLabels L).filter fun pid =>
    ∀ p ∈ L.coords, L.val p = pid → create_guard_volume_mask L.Z L.Y L.X margin p

/-- `count_contacts_with_guard(labels, connectivity)` with the mask and
interior set computed internally (the `guard_mask`/`interior_particles`
arguments default to `None` in the source and are always `None` in the
pipeline): returns `(full_contacts, interior_contacts, stats)` where
`interior_contacts` filters `full_contacts` to interior ids and `stats` is
`(total_particles, interior_particles, excluded_particles)`. -/
noncomputable def count_contacts_with_guard (L : Vol ℕ) (c : ℕ) :
    List (ℕ × ℕ) × List (ℕ × ℕ) × (ℕ × ℕ × ℕ) :=
  let full := count_contacts L c
  let margin := calculate_guard_margin L 10 (3 / 10)
  let interior := filter_interior_particles L margin
  let intc := full.filter fun pr => decide (pr.1 ∈ interior)
  (full, intc, (full.length, intc.length, full.length - intc.length))

/-- Looking up a key that satisfies the filter predicate is unaffected by
filtering an association list on its keys. -/
theorem lookup_filter_keys {β : Type} (P : ℕ → Prop) [DecidablePred P]
    (l : List (ℕ × β)) (k : ℕ) (hk : P k) :
    (l.filter fun pr => decide (P pr.1)).lookup k = l.lookup k := by
  induction l with
  | nil => rfl
  | cons hd tl ih =>
    by_cases hP : P hd.1
    · have : (hd :: tl).filter (fun pr => decide (P pr.1)) =
          hd :: tl.filter fun pr => decide (P pr.1) := by
        simp [List.filter, hP]
      rw [this]
      cases hd with
      | mk a b =>
        by_cases hka : k = a
        · subst hka; simp [List.lookup]
        · have hbeq : (k == a) = false := by simp [hka]
          simp [List.lookup, hbeq, ih]
    · have hne : k ≠ hd.1 := fun h => hP (h ▸ hk)
      have : (hd :: tl).filter (fun pr => decide (P pr.1)) =
          tl.filter fun pr => decide (P pr.1) := by
        simp [List.filter, hP]
      rw [this, ih]
      cases hd with
      | mk a b =>
        have hbeq : (k == a) = false := by simp_all
        simp [List.lookup, hbeq]

/-- C6: `count_contacts_with_guard` returns `interior_contacts` as the pure
key-restriction of `full_contacts` — the stored contact count of every
interior particle is looked up unchanged (contacts with boundary particles
included) — and the guard statistics partition the particles:
`total_particles = interior_particles + excluded_particles`. -/
theorem guard_restriction_and_partition (L : Vol ℕ) (c : ℕ) :
    (∀ pid : ℕ,
        pid ∈ filter_interior_particles L (calculate_guard_margin L 10 (3 / 10)) →
          ((count_contacts_with_guard L c).2.1).lookup pid =
            ((count_contacts_with_guard L c).1).lookup pid) ∧
      (count_contacts_with_guard L c).2.2.1 =
        (count_contacts_with_guard L c).2.2.2.1 + (count_contacts_with_guard L c).2.2.2.2 := by
  constructor
  · intro pid hpid
    exact lookup_filter_keys
      (fun k => k ∈ filter_interior_particles L (calculate_guard_margin L 10 (3 / 10)))
      (count_contacts L c) pid hpid
  · have hle : ((count_contacts L c).filter fun pr =>
        decide (pr.1 ∈ filter_interior_particles L (calculate_guard_margin L 10 (3 / 10)))).length ≤
        (count_contacts L c).length := List.length_filter_le _ _
    show (count_contacts L c).length =
      ((count_contacts L c).filter fun pr =>
        decide (pr.1 ∈ filter_interior_particles L (calculate_guard_margin L 10 (3 / 10)))).length +
      ((count_contacts L c).length -
        ((count_contacts L c).filter fun pr =>
          decide (pr.1 ∈ filter_interior_particles L (calculate_guard_margin L 10 (3 / 10)))).length)
    omega

/-- A 21×21×21 label volume with a single voxel of particle 1 at its
centre. -/
def ex21 : Vol ℕ := ⟨21, 21, 21, fun z y x => if z = 10 ∧ y = 10 ∧ x = 10 then 1 else 0⟩

theorem ex21_margin : calculate_guard_margin ex21 10 (3 / 10) = 10 :=
  guard_margin_of_le ex21 10 (3 / 10) (by decide)

theorem ex21_interior_mem :
    1 ∈ filter_interior_particles ex21 (calculate_guard_margin ex21 10 (3 / 10)) := by
  rw [ex21_margin]
  refine Finset.mem_filter.mpr ⟨?_, ?_⟩
  · refine Finset.mem_filter.mpr ⟨Finset.mem_image.mpr ⟨(10, 10, 10), ?_, rfl⟩, by decide⟩
    exact (Vol.mem_coords _ _).mpr (by decide)
  · rintro ⟨z, y, x⟩ hp hval
    have hval' : (if z = 10 ∧ y = 10 ∧ x = 10 then 1 else 0) = 1 := hval
    by_cases h : z = 10 ∧ y = 10 ∧ x = 10
    · obtain ⟨hz, hy, hx⟩ := h
      subst hz; subst hy; subst hx
      decide
    · rw [if_neg h] at hval'
      exact absurd hval' (by decide)

/-- C6 witness: on the 21³ single-particle volume, particle 1 is interior
and its interior-contact lookup equals its full-contact lookup. -/
theorem guard_restriction_witness :
    1 ∈ filter_interior_particles ex21 (calculate_guard_margin ex21 10 (3 / 10)) ∧
      ((count_contacts_with_guard ex21 6).2.1).lookup 1 =
        ((count_contacts_with_guard ex21 6).1).lookup 1 :=
  ⟨ex21_interior_mem, (guard_restriction_and_partition ex21 6).1 1 ex21_interior_mem⟩

/-! ### Per-radius record assembly — `optimize_radius_advanced`
(`src/particle_analysis/volume/optimizer.py`, loop body lines 73–152).
The label volume for the radius is produced by `split_particles_in_memory`
(imported from `volume.core`); the record-assembly logic below is a function
of that label volume, so it is parameterised by `labels`. -/

/-- `calculate_largest_particle_ratio(labels)` from
`volume/metrics/basic.py`: `(largest / total, largest, total)` over the
`np.bincount` of the labels with the background entry zeroed; `(0, 0, 0)`
for an empty array, an all-zero volume, or a zero total. -/
def largestParticleFrac (L : Vol ℕ) : ℚ × ℕ × ℕ :=
  if L.coords.card = 0 then (0, 0, 0)
  else if maxLabel L = 0 then (0, 0, 0)
  else
    let total := ∑ pid ∈ Finset.Icc 1 (maxLabel L), particleVolume L pid
    let largest := (Finset.Icc 1 (maxLabel L)).sup (particleVolume L)
    if total = 0 then (0, 0, 0) else ((largest : ℚ) / total, largest, total)

/-- `OptimizationResult` (`volume/data_structures.py`); the wall-clock
`processing_time` and the file path `labels_path` are not modelled. -/
structure OptimizationResult where
  radius : ℕ
  particle_count : ℕ
  mean_contacts : ℚ
  largest_particle_frac : ℚ
  total_volume : ℕ
  largest_particle_volume : ℕ
  interior_particle_count : ℕ
  excluded_particle_count : ℕ

/-- The loop body of `optimize_radius_advanced` for one radius with
`complete_analysis=True`: `mean_contacts`, `interior_particle_count` and
`excluded_particle_count` start at zero and are assigned only when
`interior_contacts` is non-empty; the guard statistics are otherwise
dropped. -/
noncomputable def radiusStep (labels : Vol ℕ) (connectivity r : ℕ) :
    OptimizationResult :=
  let num_particles := maxLabel labels
  let lr := largestParticleFrac labels
  if 0 < num_particles then
    let g := count_contacts_with_guard labels connectivity
    if g.2.1 ≠ [] then
      { radius := r, particle_count := num_particles,
        mean_contacts := ((g.2.1.map fun pr => (pr.2 : ℚ)).sum) / (g.2.1.length : ℚ),
        largest_particle_frac := lr.1, total_volume := lr.2.2,
        largest_particle_volume := lr.2.1,
        interior_particle_count := g.2.2.2.1,
        excluded_particle_count := g.2.2.2.2 }
    else
      { radius := r, particle_count := num_particles, mean_contacts := 0,
        largest_particle_frac := lr.1, total_volume := lr.2.2,
        largest_particle_volume := lr.2.1,
        interior_particle_count := 0, excluded_particle_count := 0 }
  else
    { radius := r, particle_count := num_particles, mean_contacts := 0,
      largest_particle_frac := lr.1, total_volume := lr.2.2,
      largest_particle_volume := lr.2.1,
      interior_particle_count := 0, excluded_particle_count := 0 }

/-- C10: whenever the interior contact map is empty, the emitted record
carries `mean_contacts = 0`, `interior_particle_count = 0` and
`excluded_particle_count = 0` — even though the guard statistics tuple
itself reports every particle as excluded
(`excluded_particles = total_particles = labels.max()`); those statistics
are copied into the record only on the non-empty branch. -/
theorem radiusStep_empty_interior (labels : Vol ℕ) (c r : ℕ)
    (hn : 0 < maxLabel labels)
    (hi : (count_contacts_with_guard labels c).2.1 = []) :
    (radiusStep labels c r).mean_contacts = 0 ∧
      (radiusStep labels c r).interior_particle_count = 0 ∧
      (radiusStep labels c r).excluded_particle_count = 0 ∧
      (count_contacts_with_guard labels c).2.2.2.2 = maxLabel labels := by
  have hstats : (count_contacts_with_guard labels c).2.2.2.2 =
      (count_contacts_with_guard labels c).1.length -
        (count_contacts_with_guard labels c).2.1.length := rfl
  have hfull : (count_contacts_with_guard labels c).1 = count_contacts labels c := rfl
  have hlen : (count_contacts labels c).length = maxLabel labels := by
    simp [count_contacts]
  have hrec : radiusStep labels c r =
      { radius := r, particle_count := maxLabel labels, mean_contacts := 0,
        largest_particle_frac := (largestParticleFrac labels).1,
        total_volume := (largestParticleFrac labels).2.2,
        largest_particle_volume := (largestParticleFrac labels).2.1,
        interior_particle_count := 0, excluded_particle_count := 0 } := by
    unfold radiusStep
    rw [if_pos hn, if_neg (by simp [hi])]
  refine ⟨by rw [hrec], by rw [hrec], by rw [hrec], ?_⟩
  rw [hstats, hi, hfull, hlen]
  simp

/-- A 3×3×3 label volume with a single voxel of particle 1 at a corner. -/
def labels3 : Vol ℕ := ⟨3, 3, 3, fun z y x => if z = 0 ∧ y = 0 ∧ x = 0 then 1 else 0⟩

/-- C10 witness: on the 3³ single-voxel volume every particle is excluded
by the guard (margin 10 on a 3-voxel-wide volume), the interior contact map
is empty, and the record reports zeros. -/
theorem radiusStep_empty_interior_witness :
    (0 < maxLabel labels3 ∧ (count_contacts_with_guard labels3 6).2.1 = []) ∧
      ((radiusStep labels3 6 1).mean_contacts = 0 ∧
        (radiusStep labels3 6 1).interior_particle_count = 0 ∧
        (radiusStep labels3 6 1).excluded_particle_count = 0 ∧
        (count_contacts_with_guard labels3 6).2.2.2.2 = maxLabel labels3) := by
  have hm : calculate_guard_margin labels3 10 (3 / 10) = 10 :=
    guard_margin_of_le labels3 10 (3 / 10) (by decide)
  have hi : (count_contacts_with_guard labels3 6).2.1 = [] := by
    unfold count_contacts_with_guard
    dsimp only
    rw [hm]
    decide
  have hn : 0 < maxLabel labels3 := by decide
  exact ⟨⟨hn, hi⟩, radiusStep_empty_interior labels3 6 1 hn hi⟩

/-! ### Constraint-based radius selector — `select_radius_by_constraints`
(`src/particle_analysis/volume/optimizer.py`).

One row of the `results_df` DataFrame.  Field names are shortened from the
source columns (`particle_count` → `count`, `largest_particle_ratio` →
`lpr`, `mean_contacts` → `mc`); the float columns are embedded as `ℚ`.
The embedding assumes the rows contain no NaN (the `dropna` is a no-op). -/
structure SweepRow where
  radius : ℕ
  count : ℚ
  lpr : ℚ
  mc : ℚ
  deriving DecidableEq

/-- The selector's return dict: `selected_radius`, `r_star`, `r_peak`,
`reason` (the `thresholds` echo and `fallback_path_index` are redundant
bookkeeping and not modelled). -/
structure Selection where
  selected : ℕ
  rstar : Option ℕ
  rpeak : Option ℕ
  reason : String
  deriving DecidableEq

/-- Stable insertion into a radius-ascending list. -/
def insertRow (x : SweepRow) : List SweepRow → List SweepRow
  | [] => [x]
  | y :: ys => if y.radius ≤ x.radius then y :: insertRow x ys else x :: y :: ys

/-- `df.sort_values("radius").reset_index(drop=True)`. -/
def sortRows : List SweepRow → List SweepRow
  | [] => []
  | x :: xs => insertRow x (sortRows xs)

/-- Mean of the slice `xs[lo..hi]` (both ends clamped to range). -/
def windowMean (xs : List ℚ) (lo hi : ℕ) : ℚ :=
  let win := (xs.drop lo).take (hi + 1 - lo)
  win.sum / (win.length : ℚ)

/-- `series.rolling(window=w, min_periods=1, center=True).mean()`: the
centred window for label `i` spans `[i + w/2 + 1 - w, i + w/2]` (clamped),
with the extra element on the right for even `w`, as in pandas. -/
def movingAvg (w : ℕ) (xs : List ℚ) : List ℚ :=
  (List.range xs.length).map fun i =>
    windowMean xs (i + w / 2 + 1 - w) (min (i + w / 2) (xs.length - 1))

/-- The source's `_ma`: identity for `None`, 0 and 1, otherwise the centred
moving average. -/
def smooth : Option ℕ → List ℚ → List ℚ
  | none, xs => xs
  | some w, xs => if w ≤ 1 then xs else movingAvg w xs

/-- Row at positional index `i` (indices are always in range below). -/
def rowAt (rs : List SweepRow) (i : ℕ) : SweepRow := rs.getD i ⟨0, 0, 0, 0⟩

/-- Value at positional index `i` of a signal column. -/
def valAt (xs : List ℚ) (i : ℕ) : ℚ := xs.getD i 0

/-- `select_radius_by_constraints(results_df, tau_ratio, contacts_range,
smoothing_window)` (the `tau_ratio` argument is named `tau` here):
1) `r*` := radius at the first index whose smoothed ratio is `≤ tau`,
   else the smallest radius ("for fallback path bookkeeping");
2) `R_peak` := among indices with `radius ≥ r*` and smoothed ratio `≤ tau`,
   the first index attaining the maximal smoothed `particle_count`;
3) priority (A) `peak_and_contacts`, (B) `contacts_only`, (C) `r_peak`,
   (D) `r_star`, (E) `max_r` / `ValueError` on an empty frame —
   exactly as in the source, where (D) tests only `r_star is not None`. -/
def select_radius_by_constraints (rows : List SweepRow) (tau : ℚ)
    (contacts_range : ℚ × ℚ) (smoothing_window : Option ℕ) :
    Except String Selection :=
  let rs := sortRows rows
  let n := rs.length
  let lprS := smooth smoothing_window (rs.map fun r => r.lpr)
  let pcS := smooth smoothing_window (rs.map fun r => r.count)
  let cmin := contacts_range.1
  let cmax := contacts_range.2
  let idxStar : Option ℕ := (List.range n).find? fun i => decide (valAt lprS i ≤ tau)
  let rstar : Option ℕ :=
    match idxStar with
    | some i => some (rowAt rs i).radius
    | none =>
      match rs with
      | [] => none
      | r0 :: _ => some r0.radius
  let idxPeak : Option ℕ :=
    match rstar with
    | none => none
    | some rst =>
      let valid := (List.range n).filter fun i =>
        decide (rst ≤ (rowAt rs i).radius ∧ valAt lprS i ≤ tau)
      match valid with
      | [] => none
      | v0 :: vs =>
        let m := (vs.map (valAt pcS)).foldl max (valAt pcS v0)
        valid.find? fun i => decide (valAt pcS i = m)
  let rpeak : Option ℕ := idxPeak.map fun i => (rowAt rs i).radius
  let selA : Option Selection :=
    match idxPeak with
    | some ip =>
      if cmin ≤ (rowAt rs ip).mc ∧ (rowAt rs ip).mc ≤ cmax then
        some ⟨(rowAt rs ip).radius, rstar, rpeak, "peak_and_contacts"⟩
      else none
    | none => none
  let selB : Option Selection :=
    match rstar with
    | some rst =>
      match (List.range n).find? fun i =>
          decide (rst ≤ (rowAt rs i).radius ∧ cmin ≤ (rowAt rs i).mc ∧ (rowAt rs i).mc ≤ cmax) with
      | some i => some ⟨(rowAt rs i).radius, rstar, rpeak, "contacts_only"⟩
      | none => none
    | none => none
  let selC : Option Selection := rpeak.map fun rp => ⟨rp, rstar, rpeak, "r_peak"⟩
  let selD : Option Selection := rstar.map fun rst => ⟨rst, rstar, rpeak, "r_star"⟩
  match selA <|> selB <|> selC <|> selD with
  | some s => Except.ok s
  | none =>
    match rs with
    | [] => Except.error "No results to select from"
    | _ :: _ => Except.ok ⟨(rs.map fun r => r.radius).foldl max 0, rstar, rpeak, "max_r"⟩

/-- The sweep of the repository's own regression test
`test_select_max_r_when_no_r_star`: `largest_particle_ratio > τ` at every
radius and `mean_contacts ∉ [6, 7]` everywhere. -/
def noStarRows : List SweepRow :=
  [⟨1, 100, mkRat 8 10, 2⟩, ⟨2, 200, mkRat 7 10, 3⟩, ⟨3, 300, mkRat 6 10, mkRat 7 2⟩]

/-- C1 (code bug): on a sweep where the ratio constraint never holds and
the contacts constraint never holds, the selector returns the **smallest**
radius with reason `r_star` — not the largest radius with reason `max_r` as
the spec (S6), the selector's own docstring ladder and the repository test
`test_select_max_r_when_no_r_star` require.  Step 1 assigns `r_star` the
minimum radius even when no radius passes the ratio test, and step (D)
returns it unconditionally, making the `max_r` branch unreachable for a
non-empty sweep. -/
theorem selector_no_star_returns_r_star :
    select_radius_by_constraints noStarRows (mkRat 1 20) (6, 7) none =
      Except.ok ⟨1, some 1, none, "r_star"⟩ := by
  rfl

/-! ### Volume loading — `load_and_binarize_3d_volume`, Steps 2–3
(`src/particle_analysis/processing.py`).  The folder's files are modelled
by their per-file load results: `some img` when `cv2.imread` succeeds and
`none` when it returns `None`; slice images are pixel functions sharing the
first image's shape `(H, W)` (shape mismatches are outside this model).
The source preallocates `np.zeros` and, for `i > 0`, logs
`"Failed to load image ..., skipping"` and `continue`s, leaving slice `i`
zero-filled; only a `None` first image raises `ValueError`. -/
def load_volume (H W : ℕ) (files : List (Option (ℕ → ℕ → ℕ))) :
    Except String (Vol ℕ) :=
  match files with
  | [] => Except.error "No TIF/TIFF images found"
  | none :: _ => Except.error "Failed to load first image"
  | some _ :: _ =>
    Except.ok ⟨files.length, H, W, fun z y x =>
      match files.getD z none with
      | some img => img y x
      | none => 0⟩

/-- Observe one voxel of a loader result (`none` when the loader failed). -/
def loadedAt (e : Except String (Vol ℕ)) (z y x : ℕ) : Option ℕ :=
  match e with
  | .ok v => some (v.data z y x)
  | .error _ => none

/-- A folder whose second slice is unreadable. -/
def exFiles : List (Option (ℕ → ℕ → ℕ)) :=
  [some fun _ _ => 5, none, some fun _ _ => 7]

/-- C5 counterexample: with slice 1 (after the first) unreadable, the
loader does **not** fail — it returns a volume whose slice 1 is zero-filled
while the readable slices keep their data. -/
theorem loader_skips_unreadable_slice :
    loadedAt (load_volume 1 1 exFiles) 1 0 0 = some 0 ∧
      loadedAt (load_volume 1 1 exFiles) 0 0 0 = some 5 ∧
      loadedAt (load_volume 1 1 exFiles) 2 0 0 = some 7 :=
  ⟨rfl, rfl, rfl⟩

/-- C5 (amended): only a failure to load the *first* image is fatal
(`ValueError`); an unreadable later slice is logged, skipped, and left
zero-filled in the returned volume. -/
theorem loader_unreadable_behaviour (H W : ℕ) (img : ℕ → ℕ → ℕ)
    (rest : List (Option (ℕ → ℕ → ℕ))) (i y x : ℕ)
    (hun : rest.getD i none = none) :
    load_volume H W (none :: rest) = Except.error "Failed to load first image" ∧
      loadedAt (load_volume H W (some img :: rest)) (i + 1) y x = some 0 := by
  refine ⟨rfl, ?_⟩
  show some (match (some img :: rest).getD (i + 1) none with
    | some im => im y x
    | none => 0) = some 0
  rw [List.getD_cons_succ, hun]

/-- C5 witness: the amended behaviour at a concrete two-file folder whose
second file is unreadable. -/
theorem loader_unreadable_behaviour_witness :
    ([(none : Option (ℕ → ℕ → ℕ))].getD 0 none = none) ∧
      (load_volume 1 1 (none :: [(none : Option (ℕ → ℕ → ℕ))]) =
          Except.error "Failed to load first image" ∧
        loadedAt (load_volume 1 1 (some (fun _ _ => 5) :: [none])) 1 0 0 = some 0) :=
  ⟨rfl, loader_unreadable_behaviour 1 1 (fun _ _ => 5) [none] 0 0 0 rfl⟩

/-! ### Polarity selection — `load_and_binarize_3d_volume`, Step 5
(`src/particle_analysis/processing.py`, lines 195–246, `otsu3d` path where
`binary_volume is None` entering Step 5).  Both a `polarity="auto"` run and
a forced run share the same volume, ROI and two-stage threshold `t2` (all
computed before the polarity branch, independent of `polarity`), so the
stage is modelled as a function of those; Step 6's post-processing (binary
closing, small-object removal) is a deterministic function of the selected
binary volume alone and is abstracted as `post`. -/

/-- `roi_mask is not None and roi_mask.any()`. -/
def roiActive : Option (Vol Bool) → Prop
  | none => False
  | some r => ∃ p ∈ r.coords, r.val p = true

instance (o : Option (Vol Bool)) : Decidable (roiActive o) := by
  cases o <;> unfold roiActive <;> infer_instance

/-- `count_below = (roi & (V <= t2)).sum()` when the ROI is active, else
`(V <= t2).sum()`. -/
def count_below (V : Vol ℕ) (roi : Option (Vol Bool)) (t2 : ℕ) : ℕ :=
  match roi with
  | some r =>
    if roiActive (some r) then
      (V.coords.filter fun p => r.val p = true ∧ V.val p ≤ t2).card
    else (V.coords.filter fun p => V.val p ≤ t2).card
  | none => (V.coords.filter fun p => V.val p ≤ t2).card

/-- `count_above`, symmetrically with `V > t2`. -/
def count_above (V : Vol ℕ) (roi : Option (Vol Bool)) (t2 : ℕ) : ℕ :=
  match roi with
  | some r =>
    if roiActive (some r) then
      (V.coords.filter fun p => r.val p = true ∧ t2 < V.val p).card
    else (V.coords.filter fun p => t2 < V.val p).card
  | none => (V.coords.filter fun p => t2 < V.val p).card

/-- `volume > threshold2`. -/
def brightVol (V : Vol ℕ) (t2 : ℕ) : Vol Bool :=
  ⟨V.Z, V.Y, V.X, fun z y x => decide (t2 < V.data z y x)⟩

/-- `volume <= threshold2`. -/
def darkVol (V : Vol ℕ) (t2 : ℕ) : Vol Bool :=
  ⟨V.Z, V.Y, V.X, fun z y x => decide (V.data z y x ≤ t2)⟩

/-- `binary_volume &= roi_mask`, applied whenever `roi_mask is not None`
(independently of `roi_mask.any()`). -/
def applyRoi (B : Vol Bool) : Option (Vol Bool) → Vol Bool
  | none => B
  | some r => ⟨B.Z, B.Y, B.X, fun z y x => B.data z y x && r.data z y x⟩

/-- Step 5 of `load_and_binarize_3d_volume`: validate the polarity string,
then produce the binary volume and the recorded polarity description.
`auto` takes the side with the strictly smaller voxel count as foreground,
ties to the bright side (`if count_below < count_above: ... else: ...`). -/
def polarity_selection (V : Vol ℕ) (roi : Option (Vol Bool)) (t2 : ℕ)
    (polarity : String) : Except String (Vol Bool × String) :=
  if polarity ≠ "auto" ∧ polarity ≠ "bright" ∧ polarity ≠ "dark" then
    Except.error "Unsupported polarity"
  else if polarity = "bright" then
    Except.ok (applyRoi (brightVol V t2) roi,
      "forced bright (foreground is brighter/above threshold)")
  else if polarity = "dark" then
    Except.ok (applyRoi (darkVol V t2) roi,
      "forced dark (foreground is darker/below threshold)")
  else if count_below V roi t2 < count_above V roi t2 then
    Except.ok (applyRoi (darkVol V t2) roi,
      "auto inverted (foreground is darker/below threshold)")
  else
    Except.ok (applyRoi (brightVol V t2) roi,
      "auto normal (foreground is brighter/above threshold)")

/-- Steps 5–6 together: polarity selection followed by the deterministic
post-processing `post` of the binary volume. -/
def binarize_after_threshold (V : Vol ℕ) (roi : Option (Vol Bool)) (t2 : ℕ)
    (post : Vol Bool → Vol Bool) (polarity : String) :
    Except String (Vol Bool × String) :=
  (polarity_selection V roi t2 polarity).map fun pr => (post pr.1, pr.2)

/-- C8: with `polarity="auto"` the binarizer takes the side with the
strictly smaller voxel count (restricted to the ROI when active) as
foreground: when the above-threshold count is strictly smaller the run
resolves to `auto normal` and produces exactly the binary volume of the
same run with `polarity="bright"`; when the below-threshold count is
strictly smaller it produces exactly the volume of `polarity="dark"`. -/
theorem auto_polarity_matches_forced (V : Vol ℕ) (roi : Option (Vol Bool))
    (t2 : ℕ) (post : Vol Bool → Vol Bool) :
    (count_above V roi t2 < count_below V roi t2 →
      binarize_after_threshold V roi t2 post "auto" =
        Except.ok (post (applyRoi (brightVol V t2) roi),
          "auto normal (foreground is brighter/above threshold)") ∧
      (binarize_after_threshold V roi t2 post "auto").map (fun pr => pr.1) =
        (binarize_after_threshold V roi t2 post "bright").map fun pr => pr.1) ∧
    (count_below V roi t2 < count_above V roi t2 →
      (binarize_after_threshold V roi t2 post "auto").map (fun pr => pr.1) =
        (binarize_after_threshold V roi t2 post "dark").map fun pr => pr.1) := by
  constructor
  · intro h
    have hnlt : ¬ count_below V roi t2 < count_above V roi t2 := lt_asymm h
    unfold binarize_after_threshold polarity_selection
    rw [if_neg (by simp), if_neg (by decide), if_neg (by decide), if_neg hnlt,
      if_neg (by simp), if_pos (by decide)]
    exact ⟨rfl, rfl⟩
  · intro h
    unfold binarize_after_threshold polarity_selection
    rw [if_neg (by simp), if_neg (by decide), if_neg (by decide), if_pos h,
      if_neg (by simp), if_neg (by decide), if_pos (by decide)]
    rfl

/-- A 1×1×20 volume with 15% bright foreground (3 voxels of value 10 over
17 background zeros). -/
def ex20 : Vol ℕ := ⟨1, 1, 20, fun _ _ x => if x < 3 then 10 else 0⟩

/-- C8 witness: on the 15%-bright volume with `t2 = 5` the above count (3)
is strictly smaller than the below count (17), `auto` resolves to
`auto normal` and the binary volume equals the `bright` run's. -/
theorem auto_polarity_matches_forced_witness :
    count_above ex20 none 5 < count_below ex20 none 5 ∧
      (binarize_after_threshold ex20 none 5 id "auto" =
          Except.ok (id (applyRoi (brightVol ex20 5) none),
            "auto normal (foreground is brighter/above threshold)") ∧
        (binarize_after_threshold ex20 none 5 id "auto").map (fun pr => pr.1) =
          (binarize_after_threshold ex20 none 5 id "bright").map fun pr => pr.1) :=
  ⟨by decide, (auto_polarity_matches_forced ex20 none 5 id).1 (by decide)⟩

/-! ### Variation of Information — `calculate_variation_of_information`
(`src/particle_analysis/volume/metrics/stability.py`).  The two label
volumes must share a shape, so they are embedded as functions on a common
flattened index type `Fin n`.  `np.unique`'s relabelling to consecutive
integers is a bijection on the observed labels and leaves every contingency
count unchanged, so the contingency table is embedded directly as counts
over the observed label values; the marginal entries of that table are all
positive, which makes the source's `p = p[p > 0]` filter a no-op on the
marginals.  Float arithmetic is embedded exactly over `ℝ`; `np.log2` is
`Real.logb 2`.  The source's two early returns (`not np.any(mask)` and
`n <= 0`) are both the `card = 0` case. -/

/-- The voxels considered: all of them, or `(A > 0) | (B > 0)` when
`ignore_background` is set. -/
def viMask (n : ℕ) (A B : Fin n → ℕ) (ib : Bool) : Finset (Fin n) :=
  if ib then Finset.univ.filter fun i => 0 < A i ∨ 0 < B i else Finset.univ

/-- Marginal count of label value `u` over the masked voxels. -/
def margCount {n : ℕ} (A : Fin n → ℕ) (M : Finset (Fin n)) (u : ℕ) : ℕ :=
  (M.filter fun i => A i = u).card

/-- Joint contingency count of the label pair `(u, v)`. -/
def jointCount {n : ℕ} (A B : Fin n → ℕ) (M : Finset (Fin n)) (u v : ℕ) : ℕ :=
  (M.filter fun i => A i = u ∧ B i = v).card

/-- `calculate_variation_of_information(labels_a, labels_b,
ignore_background)`: `VI = H(X) + H(Y) - 2 I(X; Y)` in base 2 with the
final numerical guard `max(0.0, VI)`. -/
noncomputable def calculate_variation_of_information (n : ℕ)
    (A B : Fin n → ℕ) (ib : Bool) : ℝ :=
  let M := viMask n A B ib
  if M.card = 0 then 0
  else
    let m : ℝ := M.card
    let Hx := -∑ u ∈ M.image A,
      (margCount A M u / m) * Real.logb 2 (margCount A M u / m)
    let Hy := -∑ v ∈ M.image B,
      (margCount B M v / m) * Real.logb 2 (margCount B M v / m)
    let Ixy := ∑ u ∈ M.image A, ∑ v ∈ M.image B,
      if 0 < jointCount A B M u v then
        (jointCount A B M u v / m) *
          Real.logb 2 ((jointCount A B M u v / m) /
            ((margCount A M u / m) * (margCount B M v / m)))
      else 0
    max 0 (Hx + Hy - 2 * Ixy)

theorem viMask_symm (n : ℕ) (A B : Fin n → ℕ) (ib : Bool) :
    viMask n B A ib = viMask n A B ib := by
  unfold viMask
  cases ib
  · rfl
  · exact Finset.filter_congr fun i _ => by rw [or_comm]

theorem jointCount_symm {n : ℕ} (A B : Fin n → ℕ) (M : Finset (Fin n))
    (u v : ℕ) : jointCount B A M u v = jointCount A B M v u := by
  unfold jointCount
  exact congrArg Finset.card (Finset.filter_congr fun i _ => by rw [and_comm])

theorem margCount_pos {n : ℕ} (A : Fin n → ℕ) (M : Finset (Fin n)) (u : ℕ)
    (h : u ∈ M.image A) : 0 < margCount A M u := by
  rcases Finset.mem_image.mp h with ⟨i, hi, hiu⟩
  exact Finset.card_pos.mpr ⟨i, Finset.mem_filter.mpr ⟨hi, hiu⟩⟩

theorem jointCount_self_ne {n : ℕ} (A : Fin n → ℕ) (M : Finset (Fin n))
    {u v : ℕ} (h : u ≠ v) : jointCount A A M u v = 0 := by
  unfold jointCount
  rw [Finset.card_eq_zero, Finset.filter_eq_empty_iff]
  rintro i _ ⟨h1, h2⟩
  exact h (h1 ▸ h2 ▸ rfl)

theorem jointCount_self_eq {n : ℕ} (A : Fin n → ℕ) (M : Finset (Fin n))
    (u : ℕ) : jointCount A A M u u = margCount A M u := by
  unfold jointCount margCount
  exact congrArg Finset.card (Finset.filter_congr fun i _ => by
    constructor
    · exact fun h => h.1
    · exact fun h => ⟨h, h⟩)

/-- Mutual-information double sum, transposed arguments. -/
theorem ixy_symm {n : ℕ} (A B : Fin n → ℕ) (M : Finset (Fin n)) (m : ℝ) :
    (∑ u ∈ M.image B, ∑ v ∈ M.image A,
      if 0 < jointCount B A M u v then
        (jointCount B A M u v / m) * Real.logb 2 ((jointCount B A M u v / m) /
          ((margCount B M u / m) * (margCount A M v / m)))
      else 0) =
    ∑ u ∈ M.image A, ∑ v ∈ M.image B,
      if 0 < jointCount A B M u v then
        (jointCount A B M u v / m) * Real.logb 2 ((jointCount A B M u v / m) /
          ((margCount A M u / m) * (margCount B M v / m)))
      else 0 := by
  rw [Finset.sum_comm]
  refine Finset.sum_congr rfl fun a ha => Finset.sum_congr rfl fun b hb => ?_
  rw [jointCount_symm A B M b a,
    mul_comm ((margCount B M b : ℝ) / m) ((margCount A M a : ℝ) / m)]

/-- Mutual-information double sum of a labelling against itself: only the
diagonal contributes and each diagonal term is the entropy summand. -/
theorem ixy_self {n : ℕ} (A : Fin n → ℕ) (M : Finset (Fin n)) (m : ℝ)
    (hm : 0 < m) :
    (∑ u ∈ M.image A, ∑ v ∈ M.image A,
      if 0 < jointCount A A M u v then
        (jointCount A A M u v / m) * Real.logb 2 ((jointCount A A M u v / m) /
          ((margCount A M u / m) * (margCount A M v / m)))
      else 0) =
    ∑ u ∈ M.image A,
      -((margCount A M u / m) * Real.logb 2 (margCount A M u / m)) := by
  refine Finset.sum_congr rfl fun u hu => ?_
  rw [Finset.sum_eq_single u]
  · rw [jointCount_self_eq]
    have hpos : 0 < margCount A M u := margCount_pos A M u hu
    rw [if_pos hpos]
    have hp : (0 : ℝ) < (margCount A M u : ℝ) / m :=
      div_pos (by exact_mod_cast hpos) hm
    rw [div_mul_eq_div_div, div_self hp.ne', one_div, Real.logb_inv]
    ring
  · intro v _ hvu
    rw [jointCount_self_ne A M (Ne.symm hvu)]
    simp
  · intro hu'
    exact absurd hu hu'

theorem vi_cancel (x : ℝ) : -x + -x - 2 * -x = 0 := by ring

/-- C9: the Variation of Information satisfies the metric axioms:
symmetry `VI(A,B) = VI(B,A)`, non-negativity `VI ≥ 0` (by construction via
the numerical guard), and identity `VI(A,A) = 0`. -/
theorem vi_metric_axioms (n : ℕ) (A B : Fin n → ℕ) (ib : Bool) :
    calculate_variation_of_information n A B ib =
        calculate_variation_of_information n B A ib ∧
      0 ≤ calculate_variation_of_information n A B ib ∧
      calculate_variation_of_information n A A ib = 0 := by
  refine ⟨?_, ?_, ?_⟩
  · simp only [calculate_variation_of_information]
    rw [viMask_symm n A B ib]
    by_cases hM : (viMask n A B ib).card = 0
    · rw [if_pos hM, if_pos hM]
    · rw [if_neg hM, if_neg hM,
        ixy_symm A B (viMask n A B ib) ((viMask n A B ib).card : ℝ)]
      congr 1
      ring
  · simp only [calculate_variation_of_information]
    by_cases hM : (viMask n A B ib).card = 0
    · rw [if_pos hM]
    · rw [if_neg hM]
      exact le_max_left 0 _
  · simp only [calculate_variation_of_information]
    by_cases hM : (viMask n A A ib).card = 0
    · rw [if_pos hM]
    · rw [if_neg hM]
      have hm : (0 : ℝ) < ((viMask n A A ib).card : ℝ) := by
        exact_mod_cast Nat.pos_of_ne_zero hM
      rw [ixy_self A (viMask n A A ib) ((viMask n A A ib).card : ℝ) hm,
        Finset.sum_neg_distrib, vi_cancel, max_self]

/-! ### Splitter — `split_particles` (`src/particle_analysis/volume/core.py`)

`split_particles(vol_path, out_labels, radius, connectivity)`:
erode with `ball(radius)`, label the eroded volume with the hard-coded
26-structure `np.ones((3,3,3))` (the `connectivity` argument is unused by
this function), fall back to `volume.astype(np.int32)` when no seed
survives, otherwise run
`skimage.segmentation.watershed(-distance_transform_edt(volume),
seed_labels, mask=volume)`.

External dependencies are embedded by their documented semantics:
`ndimage.binary_erosion` with `border_value=0`; `ndimage.label` assigns
labels `1..n` to 26-connected components in raster order of their first
voxel; `distance_transform_edt` is embedded by *squared* Euclidean distance
to the nearest background voxel, which induces the same flooding order;
`watershed` floods the mask from the markers in increasing `-D` order
through the default face (6-)connectivity — a voxel of the mask that is not
6-connected to any marker keeps label 0 — with ties broken here
deterministically by raster index (skimage breaks them by heap insertion
age; no theorem below depends on the tie-break or on which seed wins a
voxel, only on the zero/nonzero structure, which is tie-break
independent). -/

/-- Face adjacency (the `|Δz|+|Δy|+|Δx| = 1` offsets). -/
def adj6 (p q : ℕ × ℕ × ℕ) : Prop :=
  ((p.1 : ℤ) - q.1).natAbs + ((p.2.1 : ℤ) - q.2.1).natAbs +
    ((p.2.2 : ℤ) - q.2.2).natAbs = 1

instance (p q : ℕ × ℕ × ℕ) : Decidable (adj6 p q) := by
  unfold adj6; infer_instance

/-- 26-neighbourhood adjacency (distinct voxels of the full 3×3×3 cube). -/
def adj26 (p q : ℕ × ℕ × ℕ) : Prop :=
  p ≠ q ∧ ((p.1 : ℤ) - q.1).natAbs ≤ 1 ∧ ((p.2.1 : ℤ) - q.2.1).natAbs ≤ 1 ∧
    ((p.2.2 : ℤ) - q.2.2).natAbs ≤ 1

instance (p q : ℕ × ℕ × ℕ) : Decidable (adj26 p q) := by
  unfold adj26; infer_instance

/-- `skimage.morphology.ball(radius)` as an offset list:
`{(dz,dy,dx) : dz² + dy² + dx² ≤ r²}`. -/
def ballOffsets (r : ℕ) : List (ℤ × ℤ × ℤ) :=
  (List.range (2 * r + 1)).flatMap fun (a : ℕ) =>
    (List.range (2 * r + 1)).flatMap fun (b : ℕ) =>
      (List.range (2 * r + 1)).filterMap fun (c : ℕ) =>
        if ((a : ℤ) - r) ^ 2 + ((b : ℤ) - r) ^ 2 + ((c : ℤ) - r) ^ 2 ≤ (r : ℤ) ^ 2 then
          some ((a : ℤ) - r, (b : ℤ) - r, (c : ℤ) - r)
        else none

/-- `ndimage.binary_erosion(volume, structure=ball(r))` with the default
`border_value=0`: a voxel survives iff every structuring-element offset
lands in bounds on a foreground voxel. -/
def erode (B : Vol Bool) (r : ℕ) : Vol Bool :=
  ⟨B.Z, B.Y, B.X, fun z y x =>
    (ballOffsets r).all fun o => B.valZ false (addOff (z, y, x) o)⟩

/-- Raster (C-order) index of a coordinate. -/
def rasterIdx (v : Vol α) (p : ℕ × ℕ × ℕ) : ℕ :=
  (p.1 * v.Y + p.2.1) * v.X + p.2.2

/-- Inverse of `rasterIdx` on in-range coordinates. -/
def rasterDecode (v : Vol α) (i : ℕ) : ℕ × ℕ × ℕ :=
  (i / (v.Y * v.X), i % (v.Y * v.X) / v.X, i % v.X)

/-- Total voxel count. -/
def numVox (v : Vol α) : ℕ := v.Z * v.Y * v.X

/-- One closure step: add every foreground voxel adjacent to the set. -/
def growStep (E : Vol Bool) (adj : ℕ × ℕ × ℕ → ℕ × ℕ × ℕ → Prop)
    [DecidableRel adj] (s : Finset (ℕ × ℕ × ℕ)) : Finset (ℕ × ℕ × ℕ) :=
  s ∪ E.coords.filter fun p => E.val p = true ∧ ∃ q ∈ s, adj q p

/-- Iterated closure. -/
def growN (E : Vol Bool) (adj : ℕ × ℕ × ℕ → ℕ × ℕ × ℕ → Prop)
    [DecidableRel adj] : ℕ → Finset (ℕ × ℕ × ℕ) → Finset (ℕ × ℕ × ℕ)
  | 0, s => s
  | k + 1, s => growN E adj k (growStep E adj s)

/-- All voxels of `p`'s 26-connected foreground component (the closure
saturates within `numVox` steps). -/
def reachSet (E : Vol Bool) (p : ℕ × ℕ × ℕ) : Finset (ℕ × ℕ × ℕ) :=
  growN E adj26 (numVox E) {p}

/-- The component representative: the smallest raster index in `p`'s
component (`p`'s own index is in the set; the `insert` is definitional
convenience for nonemptiness). -/
def repIdx (E : Vol Bool) (p : ℕ × ℕ × ℕ) : ℕ :=
  (insert (rasterIdx E p) ((reachSet E p).image (rasterIdx E))).min'
    (Finset.insert_nonempty _ _)

/-- The set of component representatives of the eroded foreground — one
per seed component, so its cardinality is `n_seeds`. -/
def seedReps (E : Vol Bool) : Finset ℕ :=
  (E.coords.filter fun p => E.val p = true).image (repIdx E)

/-- `n_seeds` from `ndimage.label(eroded, structure=np.ones((3,3,3)))`. -/
def nSeeds (E : Vol Bool) : ℕ := (seedReps E).card

/-- The seed label volume: component labels `1..n_seeds` in raster order
of the components' first voxels, 0 on background. -/
def seedLabelVol (E : Vol Bool) : Vol ℕ :=
  ⟨E.Z, E.Y, E.X, fun z y x =>
    if (z, y, x) ∈ E.coords ∧ E.val (z, y, x) = true then
      1 + ((seedReps E).filter fun i => i < repIdx E (z, y, x)).card
    else 0⟩

/-- Squared Euclidean distance between two coordinates. -/
def sqDist (p q : ℕ × ℕ × ℕ) : ℕ :=
  (((p.1 : ℤ) - q.1) ^ 2 + ((p.2.1 : ℤ) - q.2.1) ^ 2 +
    ((p.2.2 : ℤ) - q.2.2) ^ 2).toNat

/-- An upper bound exceeding every in-volume squared distance. -/
def sqSent (v : Vol α) : ℕ := v.Z * v.Z + v.Y * v.Y + v.X * v.X + 1

/-- `distance_transform_edt(volume)`, squared: the squared distance to the
nearest in-array background voxel (the sentinel stands for the infinite
distance of a background-free volume). -/
def edt2 (B : Vol Bool) (p : ℕ × ℕ × ℕ) : ℕ :=
  (insert (sqSent B) (((B.coords.filter fun q => B.val q = false)).image (sqDist p))).min'
    (Finset.insert_nonempty _ _)

/-- The heap priority of the watershed on `-D`: increasing `-D` is
decreasing `D` (equivalently decreasing `D²`), ties by raster index.  The
key is injective on in-range coordinates. -/
def floodKey (B : Vol Bool) (p : ℕ × ℕ × ℕ) : ℕ :=
  (sqSent B - edt2 B p) * numVox B + rasterIdx B p

/-- The flooding frontier: unlabelled mask voxels with a labelled
face-neighbour. -/
def floodCand (B : Vol Bool) (f : ℕ × ℕ × ℕ → ℕ) : Finset (ℕ × ℕ × ℕ) :=
  B.coords.filter fun p =>
    B.val p = true ∧ f p = 0 ∧ ∃ q ∈ B.coords, adj6 q p ∧ f q ≠ 0

/-- One pop of the priority flood: label the frontier voxel of minimal key
with the label of its first (by raster index) labelled face-neighbour. -/
def floodStep (B : Vol Bool) (f : ℕ × ℕ × ℕ → ℕ) : ℕ × ℕ × ℕ → ℕ :=
  if hc : ((floodCand B f).image (floodKey B)).Nonempty then
    let p := rasterDecode B ((((floodCand B f).image (floodKey B)).min' hc) % numVox B)
    if hq : ((B.coords.filter fun q => adj6 q p ∧ f q ≠ 0).image (rasterIdx B)).Nonempty then
      let q := rasterDecode B
        (((B.coords.filter fun q => adj6 q p ∧ f q ≠ 0).image (rasterIdx B)).min' hq)
      fun x => if x = p then f q else f x
    else f
  else f

/-- Iterated flooding. -/
def floodN (B : Vol Bool) : ℕ → (ℕ × ℕ × ℕ → ℕ) → ℕ × ℕ × ℕ → ℕ
  | 0, f => f
  | k + 1, f => floodN B k (floodStep B f)

/-- The markers restricted to the mask (marker voxels lie in the eroded
volume, hence in the mask). -/
def floodInit (B : Vol Bool) (markers : Vol ℕ) : ℕ × ℕ × ℕ → ℕ :=
  fun p => if p ∈ B.coords ∧ B.val p = true then markers.val p else 0

/-- The flood run to saturation (`numVox` pops suffice). -/
def floodFinal (B : Vol Bool) (markers : Vol ℕ) : ℕ × ℕ × ℕ → ℕ :=
  floodN B (numVox B) (floodInit B markers)

/-- `watershed(-distance, seed_labels, mask=volume)`: zero off the mask,
the flood's label on it. -/
def watershed (B : Vol Bool) (markers : Vol ℕ) : Vol ℕ :=
  ⟨B.Z, B.Y, B.X, fun z y x =>
    if (z, y, x) ∈ B.coords ∧ B.val (z, y, x) = true then
      floodFinal B markers (z, y, x)
    else 0⟩

/-- `split_particles`: erosion, 26-connected seed labelling, the
`n_seeds == 0` fallback `volume.astype(np.int32)`, else watershed.  (The
source's `connectivity` argument is accepted and unused, as in the code.) -/
def split_particles (B : Vol Bool) (radius connectivity : ℕ) : Vol ℕ :=
  let E := erode B radius
  if nSeeds E = 0 then
    ⟨B.Z, B.Y, B.X, fun z y x => if B.data z y x then 1 else 0⟩
  else
    watershed B (seedLabelVol E)

/-- A path inside the mask along face adjacency. -/
def MaskAdj (B : Vol Bool) (p q : ℕ × ℕ × ℕ) : Prop :=
  p ∈ B.coords ∧ q ∈ B.coords ∧ B.val p = true ∧ B.val q = true ∧ adj6 p q

/-- Mask-internal reachability. -/
def Reach (B : Vol Bool) (s p : ℕ × ℕ × ℕ) : Prop :=
  Relation.ReflTransGen (MaskAdj B) s p

theorem coords_card (v : Vol α) : v.coords.card = numVox v := by
  simp [Vol.coords, numVox, Finset.card_product, mul_assoc]

theorem rasterIdx_lt {v : Vol α} {p : ℕ × ℕ × ℕ} (hp : p ∈ v.coords) :
    rasterIdx v p < numVox v := by
  rw [Vol.mem_coords] at hp
  obtain ⟨hz, hy, hx⟩ := hp
  unfold rasterIdx numVox
  calc (p.1 * v.Y + p.2.1) * v.X + p.2.2
      < (p.1 * v.Y + p.2.1) * v.X + v.X := by omega
    _ = (p.1 * v.Y + p.2.1 + 1) * v.X := by ring
    _ ≤ (p.1 * v.Y + v.Y) * v.X := Nat.mul_le_mul_right _ (by omega)
    _ = (p.1 + 1) * (v.Y * v.X) := by ring
    _ ≤ v.Z * (v.Y * v.X) := Nat.mul_le_mul_right _ (by omega)
    _ = v.Z * v.Y * v.X := by ring

theorem rasterDecode_rasterIdx {v : Vol α} {p : ℕ × ℕ × ℕ}
    (hp : p ∈ v.coords) : rasterDecode v (rasterIdx v p) = p := by
  rw [Vol.mem_coords] at hp
  obtain ⟨z, y, x⟩ := p
  obtain ⟨hz, hy, hx⟩ := hp
  dsimp only at hz hy hx
  have hX : 0 < v.X := by omega
  have hY : 0 < v.Y := by omega
  have hYX : 0 < v.Y * v.X := Nat.mul_pos hY hX
  have hidx : rasterIdx v (z, y, x) = v.Y * v.X * z + (y * v.X + x) := by
    unfold rasterIdx; ring
  have hrem : y * v.X + x < v.Y * v.X := by
    calc y * v.X + x < y * v.X + v.X := by omega
      _ = (y + 1) * v.X := by ring
      _ ≤ v.Y * v.X := Nat.mul_le_mul_right _ (by omega)
  unfold rasterDecode
  rw [hidx]
  have hdiv : (v.Y * v.X * z + (y * v.X + x)) / (v.Y * v.X) = z := by
    rw [Nat.mul_add_div hYX, Nat.div_eq_of_lt hrem, Nat.add_zero]
  have hmid : (v.Y * v.X * z + (y * v.X + x)) % (v.Y * v.X) = y * v.X + x := by
    rw [Nat.mul_add_mod, Nat.mod_eq_of_lt hrem]
  have hy2 : (y * v.X + x) / v.X = y := by
    rw [mul_comm y v.X, Nat.mul_add_div hX, Nat.div_eq_of_lt hx, Nat.add_zero]
  have hlast : (v.Y * v.X * z + (y * v.X + x)) % v.X = x := by
    rw [show v.Y * v.X * z + (y * v.X + x) = v.X * (v.Y * z + y) + x by ring,
      Nat.mul_add_mod, Nat.mod_eq_of_lt hx]
  rw [hdiv, hmid, hy2, hlast]

theorem floodKey_mod {B : Vol Bool} {p : ℕ × ℕ × ℕ} (hp : p ∈ B.coords) :
    floodKey B p % numVox B = rasterIdx B p := by
  unfold floodKey
  rw [add_comm, Nat.add_mul_mod_self_right, Nat.mod_eq_of_lt (rasterIdx_lt hp)]

theorem mem_floodCand {B : Vol Bool} {f : ℕ × ℕ × ℕ → ℕ} {p : ℕ × ℕ × ℕ} :
    p ∈ floodCand B f ↔ p ∈ B.coords ∧ B.val p = true ∧ f p = 0 ∧
      ∃ q ∈ B.coords, adj6 q p ∧ f q ≠ 0 := by
  unfold floodCand
  exact Finset.mem_filter

theorem floodStep_of_cand_empty {B : Vol Bool} {f : ℕ × ℕ × ℕ → ℕ}
    (h : floodCand B f = ∅) : floodStep B f = f := by
  unfold floodStep
  rw [dif_neg]
  rw [h]
  simp

/-- Characterisation of one productive flood pop: it labels a frontier
voxel `p` with the label of a labelled in-bounds face-neighbour `q`. -/
theorem floodStep_spec {B : Vol Bool} {f : ℕ × ℕ × ℕ → ℕ}
    (hc : (floodCand B f).Nonempty) :
    ∃ p q, p ∈ floodCand B f ∧ q ∈ B.coords ∧ adj6 q p ∧ f q ≠ 0 ∧
      floodStep B f = fun x => if x = p then f q else f x := by
  have him : ((floodCand B f).image (floodKey B)).Nonempty := hc.image _
  obtain ⟨p₀, hp₀, hk⟩ := Finset.mem_image.mp (Finset.min'_mem _ him)
  have hp₀c : p₀ ∈ B.coords := (Finset.mem_filter.mp hp₀).1
  have hdec : rasterDecode B ((((floodCand B f).image (floodKey B)).min' him) % numVox B) = p₀ := by
    rw [← hk, floodKey_mod hp₀c, rasterDecode_rasterIdx hp₀c]
  obtain ⟨-, -, -, q', hq'⟩ := mem_floodCand.mp hp₀
  obtain ⟨hq'c, hq'adj, hq'f⟩ := hq'
  have hqne : (B.coords.filter fun q => adj6 q p₀ ∧ f q ≠ 0).Nonempty :=
    ⟨q', Finset.mem_filter.mpr ⟨hq'c, hq'adj, hq'f⟩⟩
  have hqim : ((B.coords.filter fun q => adj6 q p₀ ∧ f q ≠ 0).image (rasterIdx B)).Nonempty :=
    hqne.image _
  obtain ⟨q₀, hq₀, hj⟩ := Finset.mem_image.mp (Finset.min'_mem _ hqim)
  have hq₀c := (Finset.mem_filter.mp hq₀).1
  have hq₀adj := (Finset.mem_filter.mp hq₀).2.1
  have hq₀f := (Finset.mem_filter.mp hq₀).2.2
  have hqdec : rasterDecode B (((B.coords.filter fun q => adj6 q p₀ ∧ f q ≠ 0).image (rasterIdx B)).min' hqim) = q₀ := by
    rw [← hj, rasterDecode_rasterIdx hq₀c]
  refine ⟨p₀, q₀, hp₀, hq₀c, hq₀adj, hq₀f, ?_⟩
  unfold floodStep
  rw [dif_pos him]
  simp only [hdec]
  rw [dif_pos hqim, hqdec]

/-- Soundness invariant of the flood: every labelled voxel is a mask voxel
reachable inside the mask from an initially labelled voxel. -/
def FloodInv (B : Vol Bool) (f₀ f : ℕ × ℕ × ℕ → ℕ) : Prop :=
  ∀ p, f p ≠ 0 → p ∈ B.coords ∧ B.val p = true ∧ ∃ s, f₀ s ≠ 0 ∧ Reach B s p

theorem floodStep_inv {B : Vol Bool} {f₀ f : ℕ × ℕ × ℕ → ℕ}
    (h : FloodInv B f₀ f) : FloodInv B f₀ (floodStep B f) := by
  by_cases hc : (floodCand B f).Nonempty
  · obtain ⟨p, q, hpc, hqc, hadj, hfq, heq⟩ := floodStep_spec hc
    rw [heq]
    intro x hx
    dsimp only at hx
    obtain ⟨hpco, hpB, -, -⟩ := mem_floodCand.mp hpc
    by_cases hxp : x = p
    · subst hxp
      obtain ⟨hqco, hqB, s, hs0, hreach⟩ := h q hfq
      exact ⟨hpco, hpB, s, hs0, hreach.tail ⟨hqco, hpco, hqB, hpB, hadj⟩⟩
    · rw [if_neg hxp] at hx
      exact h x hx
  · rw [floodStep_of_cand_empty (Finset.not_nonempty_iff_eq_empty.mp hc)]
    exact h

theorem floodN_inv {B : Vol Bool} {f₀ : ℕ × ℕ × ℕ → ℕ} :
    ∀ (k : ℕ) (f : ℕ × ℕ × ℕ → ℕ), FloodInv B f₀ f → FloodInv B f₀ (floodN B k f)
  | 0, _, h => h
  | k + 1, f, h => floodN_inv k (floodStep B f) (floodStep_inv h)

theorem floodStep_preserves {B : Vol Bool} {f : ℕ × ℕ × ℕ → ℕ} {s : ℕ × ℕ × ℕ}
    (hs : f s ≠ 0) : floodStep B f s ≠ 0 := by
  by_cases hc : (floodCand B f).Nonempty
  · obtain ⟨p, q, hpc, -, -, hfq, heq⟩ := floodStep_spec hc
    rw [heq]
    dsimp only
    by_cases hsp : s = p
    · rw [if_pos hsp]
      exact hfq
    · rw [if_neg hsp]
      exact hs
  · rw [floodStep_of_cand_empty (Finset.not_nonempty_iff_eq_empty.mp hc)]
    exact hs

theorem floodN_preserves {B : Vol Bool} :
    ∀ (k : ℕ) (f : ℕ × ℕ × ℕ → ℕ) (s : ℕ × ℕ × ℕ), f s ≠ 0 → floodN B k f s ≠ 0
  | 0, _, _, hs => hs
  | k + 1, f, s, hs => floodN_preserves k (floodStep B f) s (floodStep_preserves hs)

/-- The unlabelled mask voxels — the flood's termination measure. -/
def unlabeled (B : Vol Bool) (f : ℕ × ℕ × ℕ → ℕ) : Finset (ℕ × ℕ × ℕ) :=
  B.coords.filter fun p => B.val p = true ∧ f p = 0

theorem floodStep_measure {B : Vol Bool} {f : ℕ × ℕ × ℕ → ℕ}
    (hc : (floodCand B f).Nonempty) :
    (unlabeled B (floodStep B f)).card < (unlabeled B f).card := by
  obtain ⟨p, q, hpc, -, -, hfq, heq⟩ := floodStep_spec hc
  obtain ⟨hpco, hpB, hp0, -⟩ := mem_floodCand.mp hpc
  have hpm : p ∈ unlabeled B f := Finset.mem_filter.mpr ⟨hpco, hpB, hp0⟩
  have hsub : unlabeled B (floodStep B f) ⊆ (unlabeled B f).erase p := by
    intro x hx
    obtain ⟨hxc, hxB, hx0⟩ := Finset.mem_filter.mp hx
    rw [heq] at hx0
    dsimp only at hx0
    by_cases hxp : x = p
    · rw [if_pos hxp] at hx0
      exact absurd hx0 hfq
    · rw [if_neg hxp] at hx0
      exact Finset.mem_erase.mpr ⟨hxp, Finset.mem_filter.mpr ⟨hxc, hxB, hx0⟩⟩
  calc (unlabeled B (floodStep B f)).card ≤ ((unlabeled B f).erase p).card :=
        Finset.card_le_card hsub
    _ < (unlabeled B f).card := Finset.card_erase_lt_of_mem hpm

theorem floodN_fix {B : Vol Bool} {f : ℕ × ℕ × ℕ → ℕ}
    (h : floodCand B f = ∅) : ∀ k, floodN B k f = f
  | 0 => rfl
  | k + 1 => by
    show floodN B k (floodStep B f) = f
    rw [floodStep_of_cand_empty h]
    exact floodN_fix h k

theorem floodN_saturates {B : Vol Bool} :
    ∀ (k : ℕ) (f : ℕ × ℕ × ℕ → ℕ), (unlabeled B f).card ≤ k →
      floodCand B (floodN B k f) = ∅ := by
  intro k
  induction k with
  | zero =>
    intro f hf
    rw [Nat.le_zero, Finset.card_eq_zero] at hf
    show floodCand B f = ∅
    rw [Finset.eq_empty_iff_forall_not_mem]
    intro p hp
    obtain ⟨hpc, hpB, hp0, -⟩ := mem_floodCand.mp hp
    have : p ∈ unlabeled B f := Finset.mem_filter.mpr ⟨hpc, hpB, hp0⟩
    rw [hf] at this
    exact Finset.not_mem_empty _ this
  | succ k ih =>
    intro f hf
    by_cases hc : (floodCand B f).Nonempty
    · have hlt := floodStep_measure hc
      exact ih (floodStep B f) (by omega)
    · have hem := Finset.not_nonempty_iff_eq_empty.mp hc
      rw [floodN_fix hem]
      exact hem

/-- At a flood fixpoint the labelled region is closed under mask
reachability. -/
theorem reach_labeled_of_fix {B : Vol Bool} {f : ℕ × ℕ × ℕ → ℕ}
    (hfix : floodCand B f = ∅) {s p : ℕ × ℕ × ℕ} (hs : f s ≠ 0)
    (hr : Reach B s p) : f p ≠ 0 := by
  induction hr with
  | refl => exact hs
  | tail hr' hadj ih =>
    rename_i b c
    by_contra hc0
    obtain ⟨hbc, hcc, hbB, hcB, hbadj⟩ := hadj
    have : c ∈ floodCand B f :=
      mem_floodCand.mpr ⟨hcc, hcB, hc0, b, hbc, hbadj, ih⟩
    rw [hfix] at this
    exact Finset.not_mem_empty _ this

theorem inB_cast (v : Vol α) (p : ℕ × ℕ × ℕ) :
    v.inB ((p.1 : ℤ), (p.2.1 : ℤ), (p.2.2 : ℤ)) ↔ p ∈ v.coords := by
  rw [Vol.mem_coords]
  unfold Vol.inB
  dsimp only
  omega

theorem valZ_cast (v : Vol α) (d : α) (p : ℕ × ℕ × ℕ) :
    v.valZ d ((p.1 : ℤ), (p.2.1 : ℤ), (p.2.2 : ℤ)) =
      if p ∈ v.coords then v.val p else d := by
  unfold Vol.valZ
  by_cases h : p ∈ v.coords
  · rw [if_pos ((inB_cast v p).mpr h), if_pos h]
    simp [Vol.val]
  · rw [if_neg (fun hc => h ((inB_cast v p).mp hc)), if_neg h]

theorem zero_mem_ballOffsets (r : ℕ) :
    ((0 : ℤ), (0 : ℤ), (0 : ℤ)) ∈ ballOffsets r := by
  unfold ballOffsets
  have hr : r ∈ List.range (2 * r + 1) := List.mem_range.mpr (by omega)
  rw [List.mem_flatMap]
  refine ⟨r, hr, ?_⟩
  rw [List.mem_flatMap]
  refine ⟨r, hr, ?_⟩
  rw [List.mem_filterMap]
  refine ⟨r, hr, ?_⟩
  have hc : ((r : ℤ) - r) ^ 2 + ((r : ℤ) - r) ^ 2 + ((r : ℤ) - r) ^ 2 ≤ (r : ℤ) ^ 2 := by
    simp only [sub_self]
    norm_num
  rw [if_pos hc]
  norm_num

theorem erode_subset {B : Vol Bool} {r : ℕ} {p : ℕ × ℕ × ℕ}
    (hp : p ∈ B.coords) (hE : (erode B r).val p = true) : B.val p = true := by
  have hall := List.all_eq_true.mp hE
  have h0 := hall _ (zero_mem_ballOffsets r)
  have haddz : addOff p ((0 : ℤ), (0 : ℤ), (0 : ℤ)) =
      ((p.1 : ℤ), (p.2.1 : ℤ), (p.2.2 : ℤ)) := by
    unfold addOff
    norm_num
  rw [haddz, valZ_cast, if_pos hp] at h0
  exact h0

theorem seedLabelVol_val_ne {E : Vol Bool} {p : ℕ × ℕ × ℕ}
    (hp : p ∈ E.coords) : ((seedLabelVol E).val p ≠ 0 ↔ E.val p = true) := by
  obtain ⟨z, y, x⟩ := p
  show (if (z, y, x) ∈ E.coords ∧ E.val (z, y, x) = true then
    1 + ((seedReps E).filter fun i => i < repIdx E (z, y, x)).card else 0) ≠ 0 ↔ _
  by_cases h : (z, y, x) ∈ E.coords ∧ E.val (z, y, x) = true
  · rw [if_pos h]
    constructor
    · intro _
      exact h.2
    · intro _
      omega
  · rw [if_neg h]
    constructor
    · intro hh
      exact absurd rfl hh
    · intro hv
      exact absurd ⟨hp, hv⟩ h

theorem floodInit_ne {B : Vol Bool} {m : Vol ℕ} {s : ℕ × ℕ × ℕ}
    (h : floodInit B m s ≠ 0) :
    (s ∈ B.coords ∧ B.val s = true) ∧ m.val s ≠ 0 := by
  by_cases hc : s ∈ B.coords ∧ B.val s = true
  · refine ⟨hc, ?_⟩
    unfold floodInit at h
    rwa [if_pos hc] at h
  · unfold floodInit at h
    rw [if_neg hc] at h
    exact absurd rfl h

theorem floodInit_inv (B : Vol Bool) (m : Vol ℕ) :
    FloodInv B (floodInit B m) (floodInit B m) := by
  intro p hp
  obtain ⟨⟨hc, hB⟩, -⟩ := floodInit_ne hp
  exact ⟨hc, hB, p, hp, Relation.ReflTransGen.refl⟩

theorem floodFinal_fix (B : Vol Bool) (m : Vol ℕ) :
    floodCand B (floodFinal B m) = ∅ :=
  floodN_saturates (numVox B) _
    (le_trans (Finset.card_filter_le _ _) (le_of_eq (coords_card B)))

theorem split_particles_eq (B : Vol Bool) (r c : ℕ) :
    split_particles B r c =
      if nSeeds (erode B r) = 0 then
        ⟨B.Z, B.Y, B.X, fun z y x => if B.data z y x then 1 else 0⟩
      else watershed B (seedLabelVol (erode B r)) := rfl

/-- C2 (amended): the splitter's label volume is nonzero only on
foreground voxels; the full invariant `L[i] = 0 ↔ B[i] = false` holds
unconditionally in the zero-seed fallback branch (`n_seeds = 0`), and in
the watershed branch whenever every foreground voxel is 6-connected inside
the mask to a voxel that survives the erosion (i.e. every foreground
component contains a seed).  A component erased entirely by the erosion
while others survive keeps label 0 on foreground voxels (see the
counterexample). -/
theorem split_particles_zero (B : Vol Bool) (r conn : ℕ) :
    (∀ p ∈ B.coords, (split_particles B r conn).val p ≠ 0 → B.val p = true) ∧
      (nSeeds (erode B r) = 0 →
        ∀ p ∈ B.coords, ((split_particles B r conn).val p = 0 ↔ B.val p = false)) ∧
      ((∀ p ∈ B.coords, B.val p = true →
          ∃ s ∈ B.coords, (erode B r).val s = true ∧ Reach B s p) →
        ∀ p ∈ B.coords, ((split_particles B r conn).val p = 0 ↔ B.val p = false)) := by
  refine ⟨?_, ?_, ?_⟩
  · intro p hp hne
    rw [split_particles_eq] at hne
    by_cases h0 : nSeeds (erode B r) = 0
    · rw [if_pos h0] at hne
      have hval : (⟨B.Z, B.Y, B.X, fun z y x => if B.data z y x then 1 else 0⟩ :
          Vol ℕ).val p = if B.val p = true then 1 else 0 := rfl
      rw [hval] at hne
      by_cases hB : B.val p = true
      · exact hB
      · rw [if_neg hB] at hne
        exact absurd rfl hne
    · rw [if_neg h0] at hne
      have hval : (watershed B (seedLabelVol (erode B r))).val p =
          if p ∈ B.coords ∧ B.val p = true then
            floodFinal B (seedLabelVol (erode B r)) p
          else 0 := rfl
      rw [hval] at hne
      by_cases hcond : p ∈ B.coords ∧ B.val p = true
      · exact hcond.2
      · rw [if_neg hcond] at hne
        exact absurd rfl hne
  · intro h0 p _
    rw [split_particles_eq, if_pos h0]
    have hval : (⟨B.Z, B.Y, B.X, fun z y x => if B.data z y x then 1 else 0⟩ :
        Vol ℕ).val p = if B.val p = true then 1 else 0 := rfl
    rw [hval]
    cases hB : B.val p
    · simp
    · simp
  · intro hseed p hp
    rw [split_particles_eq]
    by_cases h0 : nSeeds (erode B r) = 0
    · rw [if_pos h0]
      have hval : (⟨B.Z, B.Y, B.X, fun z y x => if B.data z y x then 1 else 0⟩ :
          Vol ℕ).val p = if B.val p = true then 1 else 0 := rfl
      rw [hval]
      cases hB : B.val p
      · simp
      · simp
    · rw [if_neg h0]
      have hval : (watershed B (seedLabelVol (erode B r))).val p =
          if p ∈ B.coords ∧ B.val p = true then
            floodFinal B (seedLabelVol (erode B r)) p
          else 0 := rfl
      rw [hval]
      by_cases hB : B.val p = true
      · rw [if_pos ⟨hp, hB⟩, hB]
        obtain ⟨s, hsc, hsE, hreach⟩ := hseed p hp hB
        have hsB : B.val s = true := erode_subset hsc hsE
        have hs0 : floodInit B (seedLabelVol (erode B r)) s ≠ 0 := by
          unfold floodInit
          rw [if_pos ⟨hsc, hsB⟩]
          exact (@seedLabelVol_val_ne (erode B r) s
            (show s ∈ (erode B r).coords from hsc)).mpr hsE
        have hfp : floodFinal B (seedLabelVol (erode B r)) p ≠ 0 :=
          reach_labeled_of_fix (floodFinal_fix B _)
            (floodN_preserves (numVox B) _ s hs0) hreach
        constructor
        · intro h
          exact absurd h hfp
        · intro h
          exact Bool.noConfusion h
      · have hBf : B.val p = false := by
          cases hBv : B.val p
          · rfl
          · exact absurd hBv hB
        rw [if_neg fun hcon => hB hcon.2, hBf]
        simp

/-- A 3×3×5 binary volume: a full 3×3×3 block at `x ≤ 2`, a background
plane at `x = 3`, and one isolated foreground voxel at `(1, 1, 4)`. -/
def exSplit : Vol Bool :=
  ⟨3, 3, 5, fun z y x => decide (x ≤ 2) || decide (z = 1 ∧ y = 1 ∧ x = 4)⟩

set_option maxRecDepth 8000 in
theorem exSplit_seed : nSeeds (erode exSplit 1) ≠ 0 :=
  Finset.card_ne_zero_of_mem (Finset.mem_image.mpr
    ⟨(1, 1, 1), Finset.mem_filter.mpr ⟨by decide, by decide⟩, rfl⟩)

set_option maxRecDepth 8000 in
theorem exSplit_erode_bound :
    ∀ s ∈ exSplit.coords, (erode exSplit 1).val s = true → s.2.2 ≤ 2 := by
  decide

theorem exSplit_reach_bound {s p : ℕ × ℕ × ℕ} (hr : Reach exSplit s p)
    (hs : s.2.2 ≤ 2) : p.2.2 ≤ 2 := by
  induction hr with
  | refl => exact hs
  | tail hr' hadj ih =>
    rename_i b c
    obtain ⟨hbc, hcc, hbB, hcB, hbadj⟩ := hadj
    have h1 : c.2.2 ≤ 2 ∨ (c.1 = 1 ∧ c.2.1 = 1 ∧ c.2.2 = 4) := by
      have hcB' : (decide (c.2.2 ≤ 2) ||
          decide (c.1 = 1 ∧ c.2.1 = 1 ∧ c.2.2 = 4)) = true := hcB
      simp only [Bool.or_eq_true, decide_eq_true_eq] at hcB'
      exact hcB'
    rcases h1 with h | h
    · exact h
    · have hdx : ((b.2.2 : ℤ) - c.2.2).natAbs ≤ 1 := by
        unfold adj6 at hbadj
        omega
      omega

set_option maxRecDepth 8000 in
/-- C2 counterexample: the isolated voxel `(1, 1, 4)` of `exSplit` is
foreground, but its component is erased by the `ball(1)` erosion (the only
seed surviving is the block's centre), so the watershed leaves it labelled
0: `L[i] == 0` does **not** imply `B[i] == false`. -/
theorem split_particles_misses_seedless_component :
    (split_particles exSplit 1 6).val (1, 1, 4) = 0 ∧
      exSplit.val (1, 1, 4) = true := by
  constructor
  · rw [split_particles_eq, if_neg exSplit_seed]
    have hval : (watershed exSplit (seedLabelVol (erode exSplit 1))).val (1, 1, 4) =
        if (1, 1, 4) ∈ exSplit.coords ∧ exSplit.val (1, 1, 4) = true then
          floodFinal exSplit (seedLabelVol (erode exSplit 1)) (1, 1, 4)
        else 0 := rfl
    rw [hval, if_pos ⟨by decide, by decide⟩]
    by_contra hne
    have hinv := floodN_inv (numVox exSplit) _
      (floodInit_inv exSplit (seedLabelVol (erode exSplit 1)))
    obtain ⟨-, -, s, hs0, hreach⟩ := hinv (1, 1, 4) hne
    obtain ⟨⟨hsc, hsB⟩, hm⟩ := floodInit_ne hs0
    have hsE : (erode exSplit 1).val s = true :=
      (@seedLabelVol_val_ne (erode exSplit 1) s
        (show s ∈ (erode exSplit 1).coords from hsc)).mp hm
    have hsx : s.2.2 ≤ 2 := exSplit_erode_bound s hsc hsE
    have hfin := exSplit_reach_bound hreach hsx
    exact absurd hfin (by decide)
  · decide

/-- The 1×1×1 all-background volume. -/
def exEmpty : Vol Bool := ⟨1, 1, 1, fun _ _ _ => false⟩

/-- A 1×1×1 volume holding a single foreground voxel: `ball(1)` erosion
erases it entirely, so `n_seeds = 0` and the fallback branch runs on a
nonempty foreground. -/
def exOne : Vol Bool := ⟨1, 1, 1, fun _ _ _ => true⟩

/-- C2 witness: the fallback-branch equivalence is exercised non-vacuously
on `exOne` (a foreground voxel whose component is erased by the erosion),
and the watershed-branch equivalence under the seed hypothesis on the
all-background volume. -/
theorem split_particles_zero_witness :
    (nSeeds (erode exOne 1) = 0 ∧
        ((split_particles exOne 1 6).val (0, 0, 0) = 0 ↔
          exOne.val (0, 0, 0) = false)) ∧
      ((∀ p ∈ exEmpty.coords, exEmpty.val p = true →
          ∃ s ∈ exEmpty.coords, (erode exEmpty 1).val s = true ∧ Reach exEmpty s p) ∧
        ((split_particles exEmpty 1 6).val (0, 0, 0) = 0 ↔
          exEmpty.val (0, 0, 0) = false)) :=
  ⟨⟨by decide,
      (split_particles_zero exOne 1 6).2.1 (by decide) (0, 0, 0) (by decide)⟩,
    ⟨fun _ _ hB => Bool.noConfusion hB,
      (split_particles_zero exEmpty 1 6).2.2 (fun _ _ hB => Bool.noConfusion hB)
        (0, 0, 0) (by decide)⟩⟩

end ParticleAnalysis
